import Mathlib

/-!
Shallow embedding of `geographic_choropleth_map.py` (Sales Strategy
Analysis): the cleaning stage `load_sales_data` and the aggregation stage
`calculate_geographic_dominance`, together with theorems settling the
specification claims about them.

Modelling conventions:
* a pandas cell that may be NaN/missing is an `Option`;
* `Series.map` with a dict maps unmapped keys to missing (`none`);
* `groupby` drops rows whose key is missing;
* `groupby(...).mean()` skips missing values and yields a missing mean for
  a group with no non-missing value;
* indexing a series with a key absent from its index (a `KeyError`), and
  selecting a column absent from a frame, are modelled by the surrounding
  computation returning `none` (the pipeline aborts);
* floats are modelled by `ℚ` (every computation here is exact arithmetic
  on finitely many values).
-/

namespace SalesStrategy

/-- A raw sales record as read from `product_sales.csv`: the fields the
pipeline touches (`state`, `sales_method`, `revenue`, `years_as_customer`).
`revenue` is nullable in the source data. -/
structure RawRecord where
  state : String
  sales_method : String
  revenue : Option ℚ
  years_as_customer : Int
deriving Repr, DecidableEq

/-- A record after the category-normalization step.  `sales_method` is
`none` when the raw value had no entry in `sales_method_mapping`
(pandas `Series.map` yields NaN there); `revenue` is `none` when missing. -/
structure Record where
  state : String
  sales_method : Option String
  revenue : Option ℚ
  years_as_customer : Int
deriving Repr, DecidableEq

/-- The `sales_method_mapping` dict of `load_sales_data` (lines 31-37):
raw spelling variants to canonical labels; any other value is unmapped. -/
def sales_method_mapping : String → Option String
  | "Email" => some "Email"
  | "Call" => some "Call"
  | "Email + Call" => some "Email + Call"
  | "em + call" => some "Email + Call"
  | "email" => some "Email"
  | _ => none

/-- `sales_data['sales_method'].map(sales_method_mapping)` (lines 38-40):
every row's category is replaced by its mapping image, missing when
unmapped. -/
def mapCategories (rows : List RawRecord) : List Record :=
  rows.map (fun r =>
    { state := r.state
      sales_method := sales_method_mapping r.sales_method
      revenue := r.revenue
      years_as_customer := r.years_as_customer })

/-- Whether the method `m` occurs (as a non-missing category) in the table:
`m` is a key of the `groupby('sales_method')` result. -/
def methodPresent (tbl : List Record) (m : String) : Bool :=
  tbl.any (fun r => r.sales_method == some m)

/-- The non-missing revenues of the rows whose category is `m`. -/
def groupRevenues (tbl : List Record) (m : String) : List ℚ :=
  (tbl.filter (fun r => r.sales_method == some m)).filterMap (fun r => r.revenue)

/-- `sales_data.groupby('sales_method')['revenue'].mean()` at key `m`
(line 43): the mean of the non-missing revenues of group `m`, missing when
the group has no non-missing revenue (pandas mean of an all-NaN group). -/
def meanRevenue (tbl : List Record) (m : String) : Option ℚ :=
  let vs := groupRevenues tbl m
  if vs.isEmpty then none else some (vs.sum / (vs.length : ℚ))

/-- `mean_revenue_by_method[key]`: indexing the per-method mean series.
A missing key — in particular the NaN category of an unmapped row, which
`groupby` excluded from the index — raises `KeyError`, modelled as `none`;
a present key yields its (possibly missing) mean. -/
def meanLookup (tbl : List Record) : Option String → Option (Option ℚ)
  | none => none
  | some m => if methodPresent tbl m then some (meanRevenue tbl m) else none

/-- `replace_null_revenue(row)` (lines 45-48): keep a non-missing revenue;
for a missing revenue look the row's own category up in the per-method
means.  `none` models the row raising (a `KeyError` in the lookup). -/
def replaceNullRevenue (tbl : List Record) (r : Record) : Option Record :=
  match r.revenue with
  | some _ => some r
  | none =>
    match meanLookup tbl r.sales_method with
    | none => none
    | some v => some { r with revenue := v }

/-- `sales_data.apply(replace_null_revenue, axis=1)` (line 50): apply the
row function to every row; the whole application raises as soon as one
row raises. -/
def imputeRevenue (tbl : List Record) : List Record → Option (List Record)
  | [] => some []
  | r :: rs =>
    match replaceNullRevenue tbl r, imputeRevenue tbl rs with
    | some r2, some rs2 => some (r2 :: rs2)
    | _, _ => none

/-- Line 53: `sales_data.loc[sales_data['years_as_customer'] > 39,
'years_as_customer'] = 39` on one row. -/
def clampTenure (r : Record) : Record :=
  if r.years_as_customer > 39 then { r with years_as_customer := 39 } else r

/-- `load_sales_data` (lines 18-55) after the CSV read: normalize the
categories, impute missing revenues with the per-method means, clamp
tenures above 39.  `none` models the function raising. -/
def load_sales_data (rows : List RawRecord) : Option (List Record) :=
  let tbl := mapCategories rows
  (imputeRevenue tbl tbl).map (fun out => out.map clampTenure)

/-- `numeric_cols` (line 73): the canonical category columns selected for
the dominance derivation, in the fixed order written in the source. -/
def numeric_cols : List String := ["Call", "Email", "Email + Call"]

/-- The distinct states of the `groupby(['state', 'sales_method'])` result
(line 69): a row with a missing category is dropped by the grouping, so a
state occurs iff some of its rows has a non-missing category. -/
def statesOf (tbl : List Record) : List String :=
  ((tbl.filter (fun r => r.sales_method.isSome)).map (fun r => r.state)).dedup

/-- `groupby(['state', 'sales_method']).size()` at `(s, m)`: the number of
rows of state `s` with category `m`. -/
def countSM (tbl : List Record) (s m : String) : Nat :=
  (tbl.filter (fun r => r.state == s && r.sales_method == some m)).length

/-- The row sum `state_method_pct.sum(axis=1)` at state `s`: the number of
rows of state `s` with a non-missing category. -/
def totalCount (tbl : List Record) (s : String) : Nat :=
  (tbl.filter (fun r => r.state == s && r.sales_method.isSome)).length

/-- Line 70: `state_method_pct.div(state_method_pct.sum(axis=1),
axis=0) * 100` at state `s`, column `m`. -/
def share (tbl : List Record) (s m : String) : ℚ :=
  ((countSM tbl s m : ℚ) / (totalCount tbl s : ℚ)) * 100

/-- `idxmax(axis=1)` paired with `max(axis=1)` over labelled columns: the
first (label, value) pair attaining the maximum value, scanning in column
order — a later column replaces the current best only when strictly
greater. -/
def argmaxFirst : List (String × ℚ) → Option (String × ℚ)
  | [] => none
  | p :: ps =>
    match argmaxFirst ps with
    | none => some p
    | some q => if q.2 > p.2 then some q else some p

/-- The `state_abbrev` dict (lines 78-94): full state name to USPS code. -/
def state_abbrev_map : String → Option String
  | "Alabama" => some "AL"
  | "Alaska" => some "AK"
  | "Arizona" => some "AZ"
  | "Arkansas" => some "AR"
  | "California" => some "CA"
  | "Colorado" => some "CO"
  | "Connecticut" => some "CT"
  | "Delaware" => some "DE"
  | "Florida" => some "FL"
  | "Georgia" => some "GA"
  | "Hawaii" => some "HI"
  | "Idaho" => some "ID"
  | "Illinois" => some "IL"
  | "Indiana" => some "IN"
  | "Iowa" => some "IA"
  | "Kansas" => some "KS"
  | "Kentucky" => some "KY"
  | "Louisiana" => some "LA"
  | "Maine" => some "ME"
  | "Maryland" => some "MD"
  | "Massachusetts" => some "MA"
  | "Michigan" => some "MI"
  | "Minnesota" => some "MN"
  | "Mississippi" => some "MS"
  | "Missouri" => some "MO"
  | "Montana" => some "MT"
  | "Nebraska" => some "NE"
  | "Nevada" => some "NV"
  | "New Hampshire" => some "NH"
  | "New Jersey" => some "NJ"
  | "New Mexico" => some "NM"
  | "New York" => some "NY"
  | "North Carolina" => some "NC"
  | "North Dakota" => some "ND"
  | "Ohio" => some "OH"
  | "Oklahoma" => some "OK"
  | "Oregon" => some "OR"
  | "Pennsylvania" => some "PA"
  | "Rhode Island" => some "RI"
  | "South Carolina" => some "SC"
  | "South Dakota" => some "SD"
  | "Tennessee" => some "TN"
  | "Texas" => some "TX"
  | "Utah" => some "UT"
  | "Vermont" => some "VT"
  | "Virginia" => some "VA"
  | "Washington" => some "WA"
  | "West Virginia" => some "WV"
  | "Wisconsin" => some "WI"
  | "Wyoming" => some "WY"
  | _ => none

/-- One row of the aggregated `choropleth_data` frame: the state, its
three canonical-category shares, the dominant method and its strength
(lines 74-75), and the attached abbreviation (line 98), missing when the
state name is not in `state_abbrev_map` (`Series.map` yields NaN). -/
structure RegionAggregate where
  state : String
  callShare : ℚ
  emailShare : ℚ
  emailCallShare : ℚ
  dominant_method : String
  dominance_strength : ℚ
  state_abbrev : Option String
deriving Repr, DecidableEq

/-- The output row of `calculate_geographic_dominance` for state `s`. -/
def dominanceRow (tbl : List Record) (s : String) : RegionAggregate :=
  let best := (argmaxFirst (numeric_cols.map (fun m => (m, share tbl s m)))).getD ("", 0)
  { state := s
    callShare := share tbl s "Call"
    emailShare := share tbl s "Email"
    emailCallShare := share tbl s "Email + Call"
    dominant_method := best.1
    dominance_strength := best.2
    state_abbrev := state_abbrev_map s }

/-- `calculate_geographic_dominance` (lines 58-100): one output row per
distinct state of the grouped table.  Selecting
`state_method_pct[numeric_cols]` (line 74) raises `KeyError` when one of
the three canonical categories occurs in no row at all (its column was
never created by `unstack`); `none` models that failure. -/
def calculate_geographic_dominance (tbl : List Record) : Option (List RegionAggregate) :=
  if numeric_cols.all (fun m => methodPresent tbl m) then
    some ((statesOf tbl).map (fun s => dominanceRow tbl s))
  else
    none

/-! ### Helper lemmas about the cleaning stage -/

theorem get_map_eq (f : RawRecord → Record) (l : List RawRecord) (i : Nat)
    (h1 : i < l.length) (h2 : i < (l.map f).length) :
    (l.map f).get ⟨i, h2⟩ = f (l.get ⟨i, h1⟩) := by
  simp

theorem get_map_rec (f : Record → Record) (l : List Record) (i : Nat)
    (h1 : i < l.length) (h2 : i < (l.map f).length) :
    (l.map f).get ⟨i, h2⟩ = f (l.get ⟨i, h1⟩) := by
  simp

theorem mapCategories_length (rows : List RawRecord) :
    (mapCategories rows).length = rows.length := by
  simp [mapCategories]

theorem mapCategories_get (rows : List RawRecord) (i : Nat)
    (h1 : i < rows.length) (h2 : i < (mapCategories rows).length) :
    (mapCategories rows).get ⟨i, h2⟩ =
      { state := (rows.get ⟨i, h1⟩).state
        sales_method := sales_method_mapping (rows.get ⟨i, h1⟩).sales_method
        revenue := (rows.get ⟨i, h1⟩).revenue
        years_as_customer := (rows.get ⟨i, h1⟩).years_as_customer } := by
  simp [mapCategories]

theorem clampTenure_revenue (r : Record) : (clampTenure r).revenue = r.revenue := by
  unfold clampTenure
  split <;> rfl

theorem clampTenure_state (r : Record) : (clampTenure r).state = r.state := by
  unfold clampTenure
  split <;> rfl

theorem clampTenure_method (r : Record) :
    (clampTenure r).sales_method = r.sales_method := by
  unfold clampTenure
  split <;> rfl

theorem clampTenure_years (r : Record) :
    (clampTenure r).years_as_customer =
      if r.years_as_customer > 39 then 39 else r.years_as_customer := by
  unfold clampTenure
  split <;> simp_all

theorem replaceNullRevenue_fields {tbl : List Record} {r r2 : Record}
    (h : replaceNullRevenue tbl r = some r2) :
    r2.state = r.state ∧ r2.sales_method = r.sales_method ∧
      r2.years_as_customer = r.years_as_customer := by
  unfold replaceNullRevenue at h
  cases hrev : r.revenue with
  | some v => rw [hrev] at h; cases h; exact ⟨rfl, rfl, rfl⟩
  | none =>
    rw [hrev] at h
    cases hl : meanLookup tbl r.sales_method with
    | none => rw [hl] at h; cases h
    | some v => rw [hl] at h; cases h; exact ⟨rfl, rfl, rfl⟩

theorem replaceNullRevenue_of_some {tbl : List Record} {r : Record} {v : ℚ}
    (h : r.revenue = some v) : replaceNullRevenue tbl r = some r := by
  unfold replaceNullRevenue
  rw [h]

theorem replaceNullRevenue_of_none {tbl : List Record} {r : Record} {c : String}
    (hrev : r.revenue = none) (hm : r.sales_method = some c)
    (hp : methodPresent tbl c = true) :
    replaceNullRevenue tbl r = some { r with revenue := meanRevenue tbl c } := by
  unfold replaceNullRevenue meanLookup
  rw [hrev, hm]
  simp [hp]

theorem replaceNullRevenue_fail {tbl : List Record} {r : Record}
    (hrev : r.revenue = none) (hm : r.sales_method = none) :
    replaceNullRevenue tbl r = none := by
  unfold replaceNullRevenue meanLookup
  rw [hrev, hm]

theorem methodPresent_of_mem {tbl : List Record} {r : Record} {c : String}
    (hmem : r ∈ tbl) (hm : r.sales_method = some c) :
    methodPresent tbl c = true := by
  unfold methodPresent
  rw [List.any_eq_true]
  exact ⟨r, hmem, by simp [hm]⟩

theorem replaceNullRevenue_isSome {tbl : List Record} {r : Record}
    (hmem : r ∈ tbl)
    (h : r.sales_method = none → r.revenue.isSome) :
    (replaceNullRevenue tbl r).isSome := by
  cases hrev : r.revenue with
  | some v => rw [replaceNullRevenue_of_some hrev]; rfl
  | none =>
    cases hm : r.sales_method with
    | none =>
      have := h hm
      rw [hrev] at this
      cases this
    | some c =>
      rw [replaceNullRevenue_of_none hrev hm (methodPresent_of_mem hmem hm)]
      rfl

theorem imputeRevenue_length {tbl : List Record} :
    ∀ {rs out : List Record}, imputeRevenue tbl rs = some out →
      out.length = rs.length := by
  intro rs
  induction rs with
  | nil =>
    intro out h
    unfold imputeRevenue at h
    cases h
    rfl
  | cons r tl ih =>
    intro out h
    unfold imputeRevenue at h
    cases hr : replaceNullRevenue tbl r with
    | none => rw [hr] at h; cases h
    | some r2 =>
      cases htl : imputeRevenue tbl tl with
      | none => rw [hr, htl] at h; cases h
      | some tl2 =>
        rw [hr, htl] at h
        cases h
        simp [ih htl]

theorem imputeRevenue_get {tbl : List Record} :
    ∀ {rs out : List Record}, imputeRevenue tbl rs = some out →
      ∀ (i : Nat) (h1 : i < rs.length) (h2 : i < out.length),
        replaceNullRevenue tbl (rs.get ⟨i, h1⟩) = some (out.get ⟨i, h2⟩) := by
  intro rs
  induction rs with
  | nil =>
    intro out h i h1 h2
    cases h1
  | cons r tl ih =>
    intro out h i h1 h2
    unfold imputeRevenue at h
    cases hr : replaceNullRevenue tbl r with
    | none => rw [hr] at h; cases h
    | some r2 =>
      cases htl : imputeRevenue tbl tl with
      | none => rw [hr, htl] at h; cases h
      | some tl2 =>
        rw [hr, htl] at h
        cases h
        cases i with
        | zero => simpa using hr
        | succ j =>
          exact ih htl j (Nat.lt_of_succ_lt_succ h1) (Nat.lt_of_succ_lt_succ h2)

theorem imputeRevenue_isSome {tbl : List Record} :
    ∀ {rs : List Record}, (∀ r ∈ rs, (replaceNullRevenue tbl r).isSome) →
      (imputeRevenue tbl rs).isSome := by
  intro rs
  induction rs with
  | nil => intro _; rfl
  | cons r tl ih =>
    intro h
    have hr := h r (List.mem_cons_self r tl)
    have htl := ih (fun q hq => h q (List.mem_cons_of_mem r hq))
    unfold imputeRevenue
    cases hr2 : replaceNullRevenue tbl r with
    | none => rw [hr2] at hr; cases hr
    | some r2 =>
      cases htl2 : imputeRevenue tbl tl with
      | none => rw [htl2] at htl; cases htl
      | some tl2 => rfl

theorem imputeRevenue_eq_none {tbl r : _} :
    ∀ {rs : List Record}, r ∈ rs → replaceNullRevenue tbl r = none →
      imputeRevenue tbl rs = none := by
  intro rs
  induction rs with
  | nil => intro h _; cases h
  | cons q tl ih =>
    intro hmem hfail
    unfold imputeRevenue
    rcases List.mem_cons.mp hmem with h | h
    · subst h
      rw [hfail]
    · rw [ih h hfail]
      cases replaceNullRevenue tbl q <;> rfl

theorem load_eq_some {rows : List RawRecord} {out : List Record} :
    load_sales_data rows = some out ↔
      ∃ mid, imputeRevenue (mapCategories rows) (mapCategories rows) = some mid ∧
        out = mid.map clampTenure := by
  simp only [load_sales_data, Option.map_eq_some']
  constructor
  · rintro ⟨mid, hmid, hout⟩
    exact ⟨mid, hmid, hout.symm⟩
  · rintro ⟨mid, hmid, hout⟩
    exact ⟨mid, hmid, hout.symm⟩

theorem load_get_spec {rows : List RawRecord} {out : List Record}
    (h : load_sales_data rows = some out)
    (i : Nat) (h1 : i < rows.length) (h2 : i < out.length) :
    ∃ m : Record,
      replaceNullRevenue (mapCategories rows)
        { state := (rows.get ⟨i, h1⟩).state
          sales_method := sales_method_mapping (rows.get ⟨i, h1⟩).sales_method
          revenue := (rows.get ⟨i, h1⟩).revenue
          years_as_customer := (rows.get ⟨i, h1⟩).years_as_customer } = some m ∧
      out.get ⟨i, h2⟩ = clampTenure m := by
  rcases load_eq_some.mp h with ⟨mid, hmid, hout⟩
  have h1t : i < (mapCategories rows).length := by
    rw [mapCategories_length]; exact h1
  have h1m : i < mid.length := by
    rw [imputeRevenue_length hmid, mapCategories_length]; exact h1
  refine ⟨mid.get ⟨i, h1m⟩, ?_, ?_⟩
  · have hg := imputeRevenue_get hmid i h1t h1m
    rw [mapCategories_get rows i h1 h1t] at hg
    exact hg
  · subst hout
    exact get_map_rec clampTenure mid i h1m h2

/-! ### Example tables used by the witnesses -/

/-- Three records of category `Call` with amounts `[10, null, 30]` (the
spec's imputation example), the last with tenure 45. -/
def exRows : List RawRecord :=
  [⟨"Texas", "Call", some 10, 5⟩,
   ⟨"Texas", "Call", none, 12⟩,
   ⟨"Texas", "Call", some 30, 45⟩]

/-- The table `load_sales_data` produces from `exRows`: the missing amount
became the group mean 20 and the tenure 45 became 39. -/
def exClean : List Record :=
  [⟨"Texas", some "Call", some 10, 5⟩,
   ⟨"Texas", some "Call", some 20, 12⟩,
   ⟨"Texas", some "Call", some 30, 39⟩]

theorem exRows_clean_eval : load_sales_data exRows = some exClean := by
  simp [load_sales_data, exRows, exClean, mapCategories, imputeRevenue,
    replaceNullRevenue, meanLookup, methodPresent, meanRevenue, groupRevenues,
    sales_method_mapping, clampTenure]
  norm_num

/-- Tenure-clamp example input: tenures 45, 39 and 5. -/
def exRows6 : List RawRecord :=
  [⟨"Texas", "Call", some 1, 45⟩,
   ⟨"Texas", "Call", some 1, 39⟩,
   ⟨"Texas", "Call", some 1, 5⟩]

/-- The table `load_sales_data` produces from `exRows6`. -/
def exClean6 : List Record :=
  [⟨"Texas", some "Call", some 1, 39⟩,
   ⟨"Texas", some "Call", some 1, 39⟩,
   ⟨"Texas", some "Call", some 1, 5⟩]

/-! ### Claims about the cleaning stage -/

/-- Claim C5: whenever the cleaning stage returns a table, that table has
exactly as many rows as the input; cleaning never drops or adds rows. -/
theorem cleaning_row_count (rows : List RawRecord) (out : List Record)
    (h : load_sales_data rows = some out) : out.length = rows.length := by
  rcases load_eq_some.mp h with ⟨mid, hmid, hout⟩
  rw [hout, List.length_map, imputeRevenue_length hmid, mapCategories_length]

/-- Witness for C5 at the concrete table `exRows`. -/
theorem cleaning_row_count_witness : exClean.length = exRows.length :=
  cleaning_row_count exRows exClean exRows_clean_eval

/-- Claim C6: the cleaning stage sets `years_as_customer` to exactly 39
when it exceeds 39 and leaves it unchanged otherwise; no lower bound is
enforced. -/
theorem tenure_clamped (rows : List RawRecord) (out : List Record)
    (h : load_sales_data rows = some out)
    (i : Nat) (h1 : i < rows.length) (h2 : i < out.length) :
    (out.get ⟨i, h2⟩).years_as_customer =
      if (rows.get ⟨i, h1⟩).years_as_customer > 39 then 39
      else (rows.get ⟨i, h1⟩).years_as_customer := by
  rcases load_get_spec h i h1 h2 with ⟨m, hm, hout⟩
  have hf := (replaceNullRevenue_fields hm).2.2
  rw [hout, clampTenure_years, hf]

/-- Witness for C6: tenures 45, 39, 5 clean to 39, 39, 5. -/
theorem tenure_clamped_witness :
    (exClean6.get ⟨0, by decide⟩).years_as_customer = 39 ∧
    (exClean6.get ⟨1, by decide⟩).years_as_customer = 39 ∧
    (exClean6.get ⟨2, by decide⟩).years_as_customer = 5 :=
  ⟨(tenure_clamped exRows6 exClean6 (by decide) 0 (by decide) (by decide)).trans (by decide),
   (tenure_clamped exRows6 exClean6 (by decide) 1 (by decide) (by decide)).trans (by decide),
   (tenure_clamped exRows6 exClean6 (by decide) 2 (by decide) (by decide)).trans (by decide)⟩

/-- Claim C2: in the cleaned table every record with a non-missing amount
keeps its amount, and every record with a missing amount and canonical
category `c` receives the per-category mean of `c`, which is the mean of
the non-missing amounts of the records of category `c` whenever at least
one exists. -/
theorem imputation_uses_category_mean (rows : List RawRecord) (out : List Record)
    (h : load_sales_data rows = some out)
    (i : Nat) (h1 : i < rows.length) (h2 : i < out.length) :
    (∀ v : ℚ, (rows.get ⟨i, h1⟩).revenue = some v →
      (out.get ⟨i, h2⟩).revenue = some v) ∧
    (∀ c : String, (rows.get ⟨i, h1⟩).revenue = none →
      sales_method_mapping (rows.get ⟨i, h1⟩).sales_method = some c →
      (out.get ⟨i, h2⟩).revenue = meanRevenue (mapCategories rows) c ∧
      (groupRevenues (mapCategories rows) c ≠ [] →
        (out.get ⟨i, h2⟩).revenue =
          some ((groupRevenues (mapCategories rows) c).sum /
            ((groupRevenues (mapCategories rows) c).length : ℚ)))) := by
  rcases load_get_spec h i h1 h2 with ⟨m, hm, hout⟩
  have h1t : i < (mapCategories rows).length := by
    rw [mapCategories_length]; exact h1
  constructor
  · intro v hv
    rw [replaceNullRevenue_of_some (show Record.revenue _ = some v from hv)] at hm
    cases hm
    rw [hout, clampTenure_revenue]
    exact hv
  · intro c hrev hc
    have hmem : ({ state := (rows.get ⟨i, h1⟩).state
                   sales_method := sales_method_mapping (rows.get ⟨i, h1⟩).sales_method
                   revenue := (rows.get ⟨i, h1⟩).revenue
                   years_as_customer := (rows.get ⟨i, h1⟩).years_as_customer } : Record)
        ∈ mapCategories rows := by
      rw [← mapCategories_get rows i h1 h1t]
      exact List.get_mem _ _ _
    have hp := methodPresent_of_mem hmem (show Record.sales_method _ = some c from hc)
    rw [replaceNullRevenue_of_none (show Record.revenue _ = none from hrev)
      (show Record.sales_method _ = some c from hc) hp] at hm
    cases hm
    have hrv : (out.get ⟨i, h2⟩).revenue = meanRevenue (mapCategories rows) c := by
      rw [hout, clampTenure_revenue]
    refine ⟨hrv, fun hne => ?_⟩
    rw [hrv]
    unfold meanRevenue
    rw [if_neg (by simpa [List.isEmpty_iff] using hne)]

/-- Witness for C2: in `exRows` category `Call` has amounts `[10, null, 30]`
and the null row cleans to the mean 20. -/
theorem imputation_uses_category_mean_witness :
    (exClean.get ⟨1, by decide⟩).revenue = meanRevenue (mapCategories exRows) "Call" ∧
    (exClean.get ⟨1, by decide⟩).revenue = some 20 :=
  ⟨((imputation_uses_category_mean exRows exClean exRows_clean_eval 1 (by decide)
      (by decide)).2 "Call" (by decide) (by decide)).1, by decide⟩

/-- Claim C1, counterexample: a table with a record whose raw category
`"fax"` has no mapping entry is cleaned without any error, and the record
passes through with a missing (null) category — the cleaning stage does
not fail. -/
theorem unmapped_category_not_rejected_cex :
    load_sales_data [⟨"Texas", "fax", some 10, 5⟩] =
      some [⟨"Texas", none, some 10, 5⟩] := by decide

/-- Claim C1 as amended: on a record with an unmapped raw category the
normalization step does not fail; it writes a missing (null) category for
that record, and cleaning succeeds whenever every unmapped-category record
has a non-missing amount. -/
theorem unmapped_category_becomes_missing (rows : List RawRecord)
    (hrev : ∀ r ∈ rows, sales_method_mapping r.sales_method = none → r.revenue.isSome) :
    ∃ out, load_sales_data rows = some out ∧
      ∀ (i : Nat) (h1 : i < rows.length) (h2 : i < out.length),
        (out.get ⟨i, h2⟩).sales_method =
          sales_method_mapping (rows.get ⟨i, h1⟩).sales_method := by
  have hsome : (imputeRevenue (mapCategories rows) (mapCategories rows)).isSome := by
    apply imputeRevenue_isSome
    intro r hr
    rcases List.mem_map.mp hr with ⟨q, hq, hqr⟩
    apply replaceNullRevenue_isSome hr
    intro hm
    subst hqr
    exact hrev q hq hm
  rcases Option.isSome_iff_exists.mp hsome with ⟨mid, hmid⟩
  refine ⟨mid.map clampTenure, load_eq_some.mpr ⟨mid, hmid, rfl⟩, ?_⟩
  intro i h1 h2
  rcases load_get_spec (load_eq_some.mpr ⟨mid, hmid, rfl⟩) i h1 h2 with ⟨m, hm, hout⟩
  rw [hout, clampTenure_method, (replaceNullRevenue_fields hm).2.1]

/-- Witness for C1 at a concrete table with the unmapped raw value
`"fax"`. -/
theorem unmapped_category_becomes_missing_witness :
    ∃ out, load_sales_data [⟨"Texas", "fax", some 10, 5⟩] = some out ∧
      ∀ (i : Nat) (h1 : i < ([⟨"Texas", "fax", some 10, 5⟩] : List RawRecord).length)
        (h2 : i < out.length),
        (out.get ⟨i, h2⟩).sales_method =
          sales_method_mapping
            (([⟨"Texas", "fax", some 10, 5⟩] : List RawRecord).get ⟨i, h1⟩).sales_method :=
  unmapped_category_becomes_missing [⟨"Texas", "fax", some 10, 5⟩] (by decide)

/-- Claim C7, counterexample: in a table whose only record has category
`Call` and a missing amount, category `Call` has no non-missing amount,
yet cleaning succeeds (no `ImputationError` exists in the code) and the
record keeps an undefined, missing amount. -/
theorem no_imputation_error_cex :
    load_sales_data [⟨"Texas", "Call", none, 5⟩] =
      some [⟨"Texas", some "Call", none, 5⟩] := by decide

/-- Claim C7 as amended: when a canonical category present in the data has
no record with a non-missing amount, the cleaning stage does not fail;
each record of that category whose amount is missing keeps a missing
(undefined) amount and is passed on towards aggregation. -/
theorem empty_group_mean_missing (rows : List RawRecord) (out : List Record)
    (h : load_sales_data rows = some out)
    (i : Nat) (h1 : i < rows.length) (h2 : i < out.length) (c : String)
    (hc : sales_method_mapping (rows.get ⟨i, h1⟩).sales_method = some c)
    (hrev : (rows.get ⟨i, h1⟩).revenue = none)
    (hemp : groupRevenues (mapCategories rows) c = []) :
    (out.get ⟨i, h2⟩).revenue = none := by
  have hmean := ((imputation_uses_category_mean rows out h i h1 h2).2 c hrev hc).1
  rw [hmean]
  unfold meanRevenue
  rw [hemp]
  rfl

/-- Witness for C7's amended claim at the concrete all-missing table. -/
theorem empty_group_mean_missing_witness :
    (([⟨"Texas", some "Call", none, 5⟩] : List Record).get ⟨0, by decide⟩).revenue = none :=
  empty_group_mean_missing [⟨"Texas", "Call", none, 5⟩]
    [⟨"Texas", some "Call", none, 5⟩] (by decide) 0 (by decide) (by decide)
    "Call" (by decide) (by decide) (by decide)

/-- Claim C10: a record whose raw category is unmapped and whose amount is
missing makes the cleaning stage fail (the missing normalized category is
not a key of the per-category mean series, a `KeyError`), while cleaning
succeeds whenever every unmapped-category record has a non-missing
amount. -/
theorem unmapped_missing_amount_keyerror (rows : List RawRecord) :
    ((∃ r ∈ rows, sales_method_mapping r.sales_method = none ∧ r.revenue = none) →
      load_sales_data rows = none) ∧
    ((∀ r ∈ rows, sales_method_mapping r.sales_method = none → r.revenue.isSome) →
      (load_sales_data rows).isSome) := by
  constructor
  · rintro ⟨r, hr, hmap, hrev⟩
    have hmem : ({ state := r.state
                   sales_method := sales_method_mapping r.sales_method
                   revenue := r.revenue
                   years_as_customer := r.years_as_customer } : Record)
        ∈ mapCategories rows := List.mem_map_of_mem _ hr
    have hfail : replaceNullRevenue (mapCategories rows)
        { state := r.state
          sales_method := sales_method_mapping r.sales_method
          revenue := r.revenue
          years_as_customer := r.years_as_customer } = none :=
      replaceNullRevenue_fail (by simpa using hrev) (by simpa using hmap)
    show Option.map (fun l => List.map clampTenure l)
      (imputeRevenue (mapCategories rows) (mapCategories rows)) = none
    rw [imputeRevenue_eq_none hmem hfail]
    rfl
  · intro hrev
    rcases unmapped_category_becomes_missing rows hrev with ⟨out, hout, _⟩
    rw [hout]
    rfl

/-- Witness for C10: the unmapped record `("Texas", "fax")` with a missing
amount aborts cleaning; with amount 10 cleaning succeeds. -/
theorem unmapped_missing_amount_keyerror_witness :
    load_sales_data [⟨"Texas", "fax", none, 5⟩] = none ∧
    (load_sales_data [⟨"Texas", "fax", some 10, 5⟩]).isSome :=
  ⟨(unmapped_missing_amount_keyerror [⟨"Texas", "fax", none, 5⟩]).1
      ⟨⟨"Texas", "fax", none, 5⟩, by decide, by decide, by decide⟩,
   (unmapped_missing_amount_keyerror [⟨"Texas", "fax", some 10, 5⟩]).2 (by decide)⟩

/-! ### Helper lemmas about the aggregation stage -/

theorem calculate_eq_some {tbl : List Record}
    (hpres : ∀ m ∈ numeric_cols, methodPresent tbl m = true) :
    calculate_geographic_dominance tbl =
      some ((statesOf tbl).map (fun s => dominanceRow tbl s)) := by
  unfold calculate_geographic_dominance
  rw [if_pos]
  rw [List.all_eq_true]
  exact hpres

theorem calculate_mem {tbl : List Record} {out : List RegionAggregate}
    (h : calculate_geographic_dominance tbl = some out) :
    out = (statesOf tbl).map (fun s => dominanceRow tbl s) := by
  unfold calculate_geographic_dominance at h
  by_cases hp : numeric_cols.all (fun m => methodPresent tbl m) = true
  · rw [if_pos hp] at h
    cases h
    rfl
  · rw [if_neg hp] at h
    cases h

theorem dominanceRow_state (tbl : List Record) (s : String) :
    (dominanceRow tbl s).state = s := rfl

theorem dominanceRow_abbrev (tbl : List Record) (s : String) :
    (dominanceRow tbl s).state_abbrev = state_abbrev_map s := rfl

theorem dominanceRow_argmax (tbl : List Record) (s : String) :
    ((dominanceRow tbl s).dominant_method = "Call" ∧
       (dominanceRow tbl s).dominance_strength = share tbl s "Call" ∧
       share tbl s "Email" ≤ share tbl s "Call" ∧
       share tbl s "Email + Call" ≤ share tbl s "Call") ∨
    ((dominanceRow tbl s).dominant_method = "Email" ∧
       (dominanceRow tbl s).dominance_strength = share tbl s "Email" ∧
       share tbl s "Call" < share tbl s "Email" ∧
       share tbl s "Email + Call" ≤ share tbl s "Email") ∨
    ((dominanceRow tbl s).dominant_method = "Email + Call" ∧
       (dominanceRow tbl s).dominance_strength = share tbl s "Email + Call" ∧
       share tbl s "Call" < share tbl s "Email + Call" ∧
       share tbl s "Email" < share tbl s "Email + Call") := by
  by_cases h1 : share tbl s "Email" < share tbl s "Email + Call"
  · by_cases h2 : share tbl s "Call" < share tbl s "Email + Call"
    · right; right
      refine ⟨?_, ?_, h2, h1⟩ <;>
        simp [dominanceRow, argmaxFirst, numeric_cols, h1, h2]
    · left
      have hzx := not_lt.mp h2
      refine ⟨?_, ?_, le_trans h1.le hzx, hzx⟩ <;>
        simp [dominanceRow, argmaxFirst, numeric_cols, h1, h2]
  · by_cases h3 : share tbl s "Call" < share tbl s "Email"
    · right; left
      refine ⟨?_, ?_, h3, not_lt.mp h1⟩ <;>
        simp [dominanceRow, argmaxFirst, numeric_cols, h1, h3]
    · left
      have hyx := not_lt.mp h3
      refine ⟨?_, ?_, hyx, le_trans (not_lt.mp h1) hyx⟩ <;>
        simp [dominanceRow, argmaxFirst, numeric_cols, h1, h3]

theorem mem_statesOf {tbl : List Record} {s : String} :
    s ∈ statesOf tbl ↔ ∃ r ∈ tbl, r.state = s ∧ r.sales_method.isSome := by
  unfold statesOf
  rw [List.mem_dedup, List.mem_map]
  constructor
  · rintro ⟨r, hr, rfl⟩
    rw [List.mem_filter] at hr
    exact ⟨r, hr.1, rfl, hr.2⟩
  · rintro ⟨r, hr, hst, hsm⟩
    exact ⟨r, List.mem_filter.mpr ⟨hr, hsm⟩, hst⟩

theorem canonical_isSome {r : Record}
    (h : r.sales_method = some "Call" ∨ r.sales_method = some "Email" ∨
      r.sales_method = some "Email + Call") :
    r.sales_method.isSome := by
  rcases h with h | h | h <;> simp [h]

theorem totalCount_eq_region_count {tbl : List Record} {s : String}
    (hcat : ∀ r ∈ tbl, r.sales_method = some "Call" ∨ r.sales_method = some "Email" ∨
      r.sales_method = some "Email + Call") :
    totalCount tbl s = (tbl.filter (fun r => r.state == s)).length := by
  unfold totalCount
  congr 1
  apply List.filter_congr
  intro r hr
  have := canonical_isSome (hcat r hr)
  simp [this]

theorem count_partition (tbl : List Record) (s : String)
    (hcat : ∀ r ∈ tbl, r.sales_method = some "Call" ∨ r.sales_method = some "Email" ∨
      r.sales_method = some "Email + Call") :
    countSM tbl s "Call" + countSM tbl s "Email" + countSM tbl s "Email + Call" =
      totalCount tbl s := by
  induction tbl with
  | nil => rfl
  | cons r tl ih =>
    have hr := hcat r (List.mem_cons_self r tl)
    have ih2 := ih (fun q hq => hcat q (List.mem_cons_of_mem r hq))
    unfold countSM totalCount at ih2 ⊢
    rw [List.filter_cons, List.filter_cons, List.filter_cons, List.filter_cons]
    by_cases hst : r.state = s
    · rcases hr with h | h | h <;> simp [hst, h] <;> omega
    · simp [hst]
      omega

theorem totalCount_pos {tbl : List Record} {s : String} {r : Record}
    (hr : r ∈ tbl) (hrs : r.state = s) (hsm : r.sales_method.isSome) :
    0 < totalCount tbl s := by
  unfold totalCount
  rw [List.length_pos]
  intro hnil
  have : r ∈ tbl.filter (fun r => r.state == s && r.sales_method.isSome) :=
    List.mem_filter.mpr ⟨hr, by simp [hrs, hsm]⟩
  rw [hnil] at this
  cases this

/-! ### Example tables used by the aggregation witnesses -/

/-- A cleaned table where Texas has category counts
`{Call: 7, Email: 3, Email + Call: 0}` out of 10 and Ohio has one
`Email + Call` record. -/
def exTbl : List Record :=
  [⟨"Texas", some "Call", some 1, 1⟩, ⟨"Texas", some "Call", some 1, 1⟩,
   ⟨"Texas", some "Call", some 1, 1⟩, ⟨"Texas", some "Call", some 1, 1⟩,
   ⟨"Texas", some "Call", some 1, 1⟩, ⟨"Texas", some "Call", some 1, 1⟩,
   ⟨"Texas", some "Call", some 1, 1⟩,
   ⟨"Texas", some "Email", some 1, 1⟩, ⟨"Texas", some "Email", some 1, 1⟩,
   ⟨"Texas", some "Email", some 1, 1⟩,
   ⟨"Ohio", some "Email + Call", some 1, 1⟩]

/-- The aggregate row the pipeline derives for Texas from `exTbl`. -/
def exAggTexas : RegionAggregate := ⟨"Texas", 70, 30, 0, "Call", 70, some "TX"⟩

/-- The aggregate row the pipeline derives for Ohio from `exTbl`. -/
def exAggOhio : RegionAggregate := ⟨"Ohio", 0, 0, 100, "Email + Call", 100, some "OH"⟩

theorem exTbl_states : statesOf exTbl = ["Texas", "Ohio"] := by decide

theorem exTbl_share_TC : share exTbl "Texas" "Call" = 70 := by
  unfold share
  rw [show countSM exTbl "Texas" "Call" = 7 from by decide,
    show totalCount exTbl "Texas" = 10 from by decide]
  norm_num

theorem exTbl_share_TE : share exTbl "Texas" "Email" = 30 := by
  unfold share
  rw [show countSM exTbl "Texas" "Email" = 3 from by decide,
    show totalCount exTbl "Texas" = 10 from by decide]
  norm_num

theorem exTbl_share_TEC : share exTbl "Texas" "Email + Call" = 0 := by
  unfold share
  rw [show countSM exTbl "Texas" "Email + Call" = 0 from by decide,
    show totalCount exTbl "Texas" = 10 from by decide]
  norm_num

theorem exTbl_share_OC : share exTbl "Ohio" "Call" = 0 := by
  unfold share
  rw [show countSM exTbl "Ohio" "Call" = 0 from by decide,
    show totalCount exTbl "Ohio" = 1 from by decide]
  norm_num

theorem exTbl_share_OE : share exTbl "Ohio" "Email" = 0 := by
  unfold share
  rw [show countSM exTbl "Ohio" "Email" = 0 from by decide,
    show totalCount exTbl "Ohio" = 1 from by decide]
  norm_num

theorem exTbl_share_OEC : share exTbl "Ohio" "Email + Call" = 100 := by
  unfold share
  rw [show countSM exTbl "Ohio" "Email + Call" = 1 from by decide,
    show totalCount exTbl "Ohio" = 1 from by decide]
  norm_num

theorem exTbl_row_Texas : dominanceRow exTbl "Texas" = exAggTexas := by
  unfold dominanceRow
  rw [show numeric_cols = ["Call", "Email", "Email + Call"] from rfl]
  simp only [List.map, argmaxFirst, exTbl_share_TC, exTbl_share_TE, exTbl_share_TEC]
  norm_num [exAggTexas]
  decide

theorem exTbl_row_Ohio : dominanceRow exTbl "Ohio" = exAggOhio := by
  unfold dominanceRow
  rw [show numeric_cols = ["Call", "Email", "Email + Call"] from rfl]
  simp only [List.map, argmaxFirst, exTbl_share_OC, exTbl_share_OE, exTbl_share_OEC]
  norm_num [exAggOhio]
  decide

theorem exTbl_agg_eval :
    calculate_geographic_dominance exTbl = some [exAggTexas, exAggOhio] := by
  rw [calculate_eq_some (by decide), exTbl_states]
  simp [exTbl_row_Texas, exTbl_row_Ohio]

/-! ### Claims about the aggregation stage -/

/-- Claim C3: for every row of the aggregator's output, the dominant
method attains the maximum share over the canonical category set, the
dominance strength is exactly the share of the dominant method, and a tie
between equal maximal shares is resolved to the earliest category in the
fixed order `Call`, `Email`, `Email + Call` (each later winner has a
strictly larger share than every earlier category). -/
theorem dominant_method_argmax (tbl : List Record) (out : List RegionAggregate)
    (h : calculate_geographic_dominance tbl = some out)
    (a : RegionAggregate) (ha : a ∈ out) :
    a.dominance_strength = share tbl a.state a.dominant_method ∧
    (∀ m ∈ numeric_cols, share tbl a.state m ≤ a.dominance_strength) ∧
    ((a.dominant_method = "Call" ∧
        share tbl a.state "Email" ≤ share tbl a.state "Call" ∧
        share tbl a.state "Email + Call" ≤ share tbl a.state "Call") ∨
     (a.dominant_method = "Email" ∧
        share tbl a.state "Call" < share tbl a.state "Email" ∧
        share tbl a.state "Email + Call" ≤ share tbl a.state "Email") ∨
     (a.dominant_method = "Email + Call" ∧
        share tbl a.state "Call" < share tbl a.state "Email + Call" ∧
        share tbl a.state "Email" < share tbl a.state "Email + Call")) := by
  rw [calculate_mem h] at ha
  rcases List.mem_map.mp ha with ⟨s, hs, rfl⟩
  rw [dominanceRow_state]
  rcases dominanceRow_argmax tbl s with ⟨hd, hstr, hy, hz⟩ | ⟨hd, hstr, hx, hz⟩ |
    ⟨hd, hstr, hx, hy⟩
  · refine ⟨by rw [hd, hstr], ?_, Or.inl ⟨hd, hy, hz⟩⟩
    intro m hm
    rw [hstr]
    rcases show m = "Call" ∨ m = "Email" ∨ m = "Email + Call" by
        simpa [numeric_cols] using hm with rfl | rfl | rfl
    · exact le_refl _
    · exact hy
    · exact hz
  · refine ⟨by rw [hd, hstr], ?_, Or.inr (Or.inl ⟨hd, hx, hz⟩)⟩
    intro m hm
    rw [hstr]
    rcases show m = "Call" ∨ m = "Email" ∨ m = "Email + Call" by
        simpa [numeric_cols] using hm with rfl | rfl | rfl
    · exact hx.le
    · exact le_refl _
    · exact hz
  · refine ⟨by rw [hd, hstr], ?_, Or.inr (Or.inr ⟨hd, hx, hy⟩)⟩
    intro m hm
    rw [hstr]
    rcases show m = "Call" ∨ m = "Email" ∨ m = "Email + Call" by
        simpa [numeric_cols] using hm with rfl | rfl | rfl
    · exact hx.le
    · exact hy.le
    · exact le_refl _

/-- Witness for C3: in `exTbl`, Texas has counts
`{Call: 7, Email: 3, Email + Call: 0}` out of 10 and its aggregate row has
dominant method `Call` with strength 70. -/
theorem dominant_method_argmax_witness :
    exAggTexas.dominant_method = "Call" ∧ exAggTexas.dominance_strength = 70 ∧
    exAggTexas.dominance_strength = share exTbl exAggTexas.state exAggTexas.dominant_method :=
  ⟨by decide, by decide,
    (dominant_method_argmax exTbl [exAggTexas, exAggOhio] exTbl_agg_eval
      exAggTexas (by simp)).1⟩

/-- Claim C9: when one of the three canonical categories occurs in no
record of the cleaned table, selecting the canonical category columns
raises a lookup error and the aggregator fails, instead of treating the
absent category as having share 0 everywhere. -/
theorem globally_absent_category_fails (tbl : List Record) (m : String)
    (hm : m ∈ numeric_cols) (habs : ∀ r ∈ tbl, r.sales_method ≠ some m) :
    calculate_geographic_dominance tbl = none := by
  unfold calculate_geographic_dominance
  rw [if_neg]
  intro hall
  rw [List.all_eq_true] at hall
  have hp := hall m hm
  unfold methodPresent at hp
  rw [List.any_eq_true] at hp
  rcases hp with ⟨r, hr, hrm⟩
  exact habs r hr (by simpa using hrm)

/-- Witness for C9: a table with only `Call` records makes the aggregator
fail because the `Email` column is missing. -/
theorem globally_absent_category_fails_witness :
    calculate_geographic_dominance [⟨"Texas", some "Call", some 1, 1⟩] = none :=
  globally_absent_category_fails [⟨"Texas", some "Call", some 1, 1⟩] "Email"
    (by decide) (by decide)

/-- Claim C4: for a cleaned table (every category canonical) accepted by
the aggregator, every region with a record gets an output row; each
canonical category's share is `100 * count / total-row-count-of-region`, a
category with no record in the region has share exactly 0, and the three
canonical shares sum to exactly 100. -/
theorem share_normalization (tbl : List Record)
    (hcat : ∀ r ∈ tbl, r.sales_method = some "Call" ∨ r.sales_method = some "Email" ∨
      r.sales_method = some "Email + Call")
    (out : List RegionAggregate) (hagg : calculate_geographic_dominance tbl = some out)
    (s : String) (r0 : Record) (hr0 : r0 ∈ tbl) (hr0s : r0.state = s) :
    (∃ a ∈ out, a.state = s) ∧
    (∀ m ∈ numeric_cols,
      share tbl s m = 100 * (countSM tbl s m : ℚ) /
        ((tbl.filter (fun r => r.state == s)).length : ℚ) ∧
      (countSM tbl s m = 0 → share tbl s m = 0)) ∧
    share tbl s "Call" + share tbl s "Email" + share tbl s "Email + Call" = 100 := by
  have hsome := canonical_isSome (hcat r0 hr0)
  have hpos := totalCount_pos hr0 hr0s hsome
  have htQ : ((totalCount tbl s : ℚ)) ≠ 0 := by
    exact_mod_cast Nat.pos_iff_ne_zero.mp hpos
  refine ⟨?_, ?_, ?_⟩
  · rw [calculate_mem hagg]
    exact ⟨dominanceRow tbl s,
      List.mem_map.mpr ⟨s, mem_statesOf.mpr ⟨r0, hr0, hr0s, hsome⟩, rfl⟩,
      dominanceRow_state tbl s⟩
  · intro m _
    constructor
    · rw [← totalCount_eq_region_count hcat]
      unfold share
      ring
    · intro hzero
      unfold share
      rw [hzero]
      simp
  · have hkeyQ : (countSM tbl s "Call" : ℚ) + countSM tbl s "Email" +
        countSM tbl s "Email + Call" = (totalCount tbl s : ℚ) := by
      exact_mod_cast count_partition tbl s hcat
    unfold share
    field_simp
    linarith [hkeyQ]

/-- Witness for C4 at `exTbl` and the region Texas. -/
theorem share_normalization_witness :
    (∃ a ∈ [exAggTexas, exAggOhio], a.state = "Texas") ∧
    (∀ m ∈ numeric_cols,
      share exTbl "Texas" m = 100 * (countSM exTbl "Texas" m : ℚ) /
        ((exTbl.filter (fun r => r.state == "Texas")).length : ℚ) ∧
      (countSM exTbl "Texas" m = 0 → share exTbl "Texas" m = 0)) ∧
    share exTbl "Texas" "Call" + share exTbl "Texas" "Email" +
      share exTbl "Texas" "Email + Call" = 100 :=
  share_normalization exTbl (by decide) [exAggTexas, exAggOhio] exTbl_agg_eval
    "Texas" ⟨"Texas", some "Call", some 1, 1⟩ (by decide) (by decide)

/-- Claim C8, counterexample: in a cleaned table whose only record is of
category `Email`, the region `Ohio` is present, yet the aggregator fails
(the `Call` and `Email + Call` columns are missing) and produces no output
row at all — so "one output row per distinct region" does not hold for
every cleaned table. -/
theorem one_row_per_region_cex :
    calculate_geographic_dominance [⟨"Ohio", some "Email", some 2, 3⟩] = none := by
  decide

/-- Claim C8 as amended: for a cleaned table containing all three canonical
categories, the aggregator succeeds (an unrecognized region name never
makes it crash) and produces exactly one output row per distinct region of
the data; each row carries the region-code lookup result, which is missing
(not dropped) for a region name absent from the abbreviation table. -/
theorem one_row_per_region (tbl : List Record)
    (hcat : ∀ r ∈ tbl, r.sales_method = some "Call" ∨ r.sales_method = some "Email" ∨
      r.sales_method = some "Email + Call")
    (hpres : ∀ m ∈ numeric_cols, methodPresent tbl m = true) :
    ∃ out, calculate_geographic_dominance tbl = some out ∧
      (out.map (fun a => a.state)).Nodup ∧
      (∀ s, (∃ a ∈ out, a.state = s) ↔ ∃ r ∈ tbl, r.state = s) ∧
      (∀ a ∈ out, a.state_abbrev = state_abbrev_map a.state) := by
  refine ⟨_, calculate_eq_some hpres, ?_, ?_, ?_⟩
  · rw [List.map_map]
    have hid : ((fun a : RegionAggregate => a.state) ∘ fun s => dominanceRow tbl s) =
        fun s : String => s := rfl
    rw [hid]
    simpa using List.nodup_dedup _
  · intro s
    constructor
    · rintro ⟨a, ha, hast⟩
      rcases List.mem_map.mp ha with ⟨t, ht, rfl⟩
      rcases mem_statesOf.mp ht with ⟨r, hr, hrs, _⟩
      rw [dominanceRow_state] at hast
      exact ⟨r, hr, by rw [hrs, hast]⟩
    · rintro ⟨r, hr, rfl⟩
      refine ⟨dominanceRow tbl r.state,
        List.mem_map.mpr ⟨r.state, ?_, rfl⟩, dominanceRow_state tbl r.state⟩
      exact mem_statesOf.mpr ⟨r, hr, rfl, canonical_isSome (hcat r hr)⟩
  · intro a ha
    rcases List.mem_map.mp ha with ⟨t, _, rfl⟩
    rw [dominanceRow_state]
    exact dominanceRow_abbrev tbl t

/-- Witness for C8: `exTbl` extended with a record in the unrecognized
region `Atlantis`; its row keeps a missing abbreviation. -/
theorem one_row_per_region_witness :
    (dominanceRow (exTbl ++ [⟨"Atlantis", some "Call", some 1, 1⟩]) "Atlantis").state_abbrev
        = none ∧
    ∃ out, calculate_geographic_dominance (exTbl ++ [⟨"Atlantis", some "Call", some 1, 1⟩])
        = some out ∧
      (out.map (fun a => a.state)).Nodup ∧
      (∀ s, (∃ a ∈ out, a.state = s) ↔
        ∃ r ∈ exTbl ++ [⟨"Atlantis", some "Call", some 1, 1⟩], r.state = s) ∧
      (∀ a ∈ out, a.state_abbrev = state_abbrev_map a.state) :=
  ⟨rfl, one_row_per_region (exTbl ++ [⟨"Atlantis", some "Call", some 1, 1⟩])
    (by decide) (by decide)⟩

end SalesStrategy
